import Mathlib

/-!
Verification development for the `dePii` repository (`deidentify_pii.py`).

The deidentification engine of the source is shallowly embedded here:

* text is `List Char`;
* the fixed regular expressions of the source (`email_pattern`,
  `phone_patterns`, `id_patterns`, the name patterns) are terms of a small
  regex language `RE` whose backtracking matcher `matchList` follows the
  Python `re` engine on exactly the constructs those patterns use
  (greedy single-character-class repetition, literals, case-insensitive
  literals, word boundaries, negative lookahead);
* `re.sub` with a replacement function is `subStAux` (leftmost,
  non-overlapping scan over the original text, state threaded through the
  replacement function); fuel is the length of the text plus one, which is
  always sufficient since every pattern of the source consumes at least one
  character per match;
* Python dictionaries keyed by matched strings are insertion-ordered
  association lists (`lookupA`); the engine only ever appends fresh keys;
* operations that can raise in Python (`email.split('@')[1]` on a string
  with no `'@'`, and expanding a replacement-template string containing
  backslash escapes in `re.sub`) return `Option`.

ASCII range note: the source is exercised on ASCII text; `\w`, `\s`, `\d`,
`str.lower`/`str.upper` and `re.IGNORECASE` are modelled on the ASCII range.
-/

namespace DePii

abbrev Str := List Char

/-! ### Character classes of the source's patterns (Python `re`, ASCII range) -/

def isWordChar (c : Char) : Bool := c.isAlphanum || c = '_'

def isSpaceChar (c : Char) : Bool :=
  c = ' ' || c = '\t' || c = '\n' || c = '\x0d' || c = '\x0b' || c = '\x0c'

/-- `[A-Za-z0-9._%+-]` : the local part of `email_pattern`. -/
def isEmailLocalChar (c : Char) : Bool :=
  c.isAlphanum || c = '.' || c = '_' || c = '%' || c = '+' || c = '-'

/-- `[A-Za-z0-9.-]` : the domain part of `email_pattern`. -/
def isEmailDomainChar (c : Char) : Bool := c.isAlphanum || c = '.' || c = '-'

/-- `[A-Z|a-z]` : the top-level-label class of `email_pattern` (the literal
`'|'` inside the class is part of the source's character class). -/
def isEmailTldChar (c : Char) : Bool := c.isUpper || c = '|' || c.isLower

/-! ### A small regex language covering the source's patterns -/

/-- Regexes as used by the source: literals, case-insensitive literals,
greedy bounded repetition of a single-character class, concatenation,
word boundary `\b`, and negative lookahead `(?!...)`. -/
inductive RE where
  | lit (l : Str)
  | liti (l : Str)
  | rep (p : Char → Bool) (lo : Nat) (hi : Option Nat)
  | seq (a b : RE)
  | wb
  | nla (r : RE)

/-- The character preceding the current position after consuming `consumed`
(needed for `\b`); falls back to the previous such character. -/
def lastOr (prev : Option Char) (consumed : Str) : Option Char :=
  match consumed.getLast? with
  | some c => some c
  | none => prev

/-- Python `\b`: word-ness differs on the two sides of the position. -/
def atBoundary (prev next : Option Char) : Bool :=
  (match prev with | some c => isWordChar c | none => false) !=
  (match next with | some c => isWordChar c | none => false)

/-- `maxN, maxN-1, ..., lo` (empty when `lo > maxN`): the order in which a
greedy bounded repetition offers match lengths to the rest of the pattern. -/
def descRange (lo maxN : Nat) : List Nat :=
  (List.range (maxN + 1 - lo)).map (fun i => maxN - i)

/-- Case-insensitive (ASCII) literal comparison against a prefix of `s`. -/
def litiMatches (l s : Str) : Bool :=
  decide (l.length ≤ s.length) &&
    ((l.zip (s.take l.length)).all (fun pc => pc.1.toLower == pc.2.toLower))

/-- All ways a regex can match a prefix of `s`, in the priority order of the
Python backtracking engine (greedy repetitions offer longest first).  Each
result is the character preceding the remaining text paired with the
remaining text.  `prev` is the character just before `s` in the full input,
for `\b`. -/
def matchList : RE → Option Char → Str → List (Option Char × Str)
  | .lit l, prev, s =>
      if l.isPrefixOf s then [(lastOr prev (s.take l.length), s.drop l.length)] else []
  | .liti l, prev, s =>
      if litiMatches l s then [(lastOr prev (s.take l.length), s.drop l.length)] else []
  | .rep p lo hi, prev, s =>
      let run := (s.takeWhile p).length
      let maxN := match hi with | none => run | some h => min h run
      (descRange lo maxN).map (fun k => (lastOr prev (s.take k), s.drop k))
  | .seq a b, prev, s =>
      (matchList a prev s).flatMap (fun pr => matchList b pr.1 pr.2)
  | .wb, prev, s =>
      if atBoundary prev s.head? then [(prev, s)] else []
  | .nla r, prev, s =>
      if (matchList r prev s).isEmpty then [(prev, s)] else []

/-- The length of the match of `re` at the start of `s` (first success in
backtracking order, as Python's engine returns), if any. -/
def matchAt (re : RE) (prev : Option Char) (s : Str) : Option Nat :=
  (matchList re prev s).head?.map (fun pr => s.length - pr.2.length)

/-- Is there a match of `re` anywhere in `s` from position `prev`/`s` on?
(Python `re.search` as a Bool.) -/
def reSearchAux (re : RE) : Option Char → Str → Bool
  | prev, [] => (matchAt re prev []).isSome
  | prev, c :: rest => (matchAt re prev (c :: rest)).isSome || reSearchAux re (some c) rest

def reSearch (re : RE) (s : Str) : Bool := reSearchAux re none s

/-- Python `re.sub` with a stateful replacement function that may raise
(`none`): scan the original text left to right, replace each leftmost
non-overlapping match, continue after the matched span of the original
text.  No pattern of the source matches the empty string, so a
(theoretically possible) zero-length match is treated as no match.  `fuel`
is consumed one unit per emitted character or match. -/
def subStAux {σ : Type} (re : RE) (f : σ → Str → Option (σ × Str)) :
    Nat → σ → Option Char → Str → Option (σ × Str)
  | 0, st, _, s => some (st, s)
  | _ + 1, st, _, [] => some (st, [])
  | fuel + 1, st, prev, c :: rest =>
    match matchAt re prev (c :: rest) with
    | some (n + 1) =>
      match f st ((c :: rest).take (n + 1)) with
      | none => none
      | some (st', r) =>
        match subStAux re f fuel st' (lastOr prev ((c :: rest).take (n + 1)))
            ((c :: rest).drop (n + 1)) with
        | none => none
        | some (st'', out) => some (st'', r ++ out)
    | _ =>
      match subStAux re f fuel st (some c) rest with
      | none => none
      | some (st', out) => some (st', c :: out)

def subSt {σ : Type} (re : RE) (f : σ → Str → Option (σ × Str)) (st : σ) (s : Str) :
    Option (σ × Str) :=
  subStAux re f (s.length + 1) st none s

/-- `re.sub` with a total replacement function (the phone and id replacement
functions never raise); the `none` default is unreachable. -/
def subT {σ : Type} (re : RE) (f : σ → Str → σ × Str) (st : σ) (s : Str) : σ × Str :=
  match subSt re (fun a m => some (f a m)) st s with
  | some r => r
  | none => (st, s)

/-- `re.sub` with a constant (already expanded) replacement string. -/
def subConst (re : RE) (repl : Str) (t : Str) : Str :=
  (subT re (fun (u : Unit) _ => (u, repl)) () t).2

/-! ### Generic helpers (Python dict as association list, `str.zfill`, ...) -/

/-- Python dict lookup on an insertion-ordered association list. -/
def lookupA (m : List (Str × Str)) (k : Str) : Option Str :=
  match m with
  | [] => none
  | kv :: rest => if kv.1 = k then some kv.2 else lookupA rest k

/-- `str(n).zfill(w)`. -/
def zfill (w : Nat) (n : Nat) : Str :=
  let s := (toString n).toList
  List.replicate (w - s.length) '0' ++ s

/-- Python `needle in hay` on strings (substring containment). -/
def containsSub : Str → Str → Bool
  | n, [] => n.isEmpty
  | n, c :: rest => n.isPrefixOf (c :: rest) || containsSub n rest

/-- Python `str.split(sep)` for a one-character separator. -/
def splitSep (sep : Char) : Str → List Str
  | [] => [[]]
  | c :: rest =>
    if c = sep then [] :: splitSep sep rest
    else
      match splitSep sep rest with
      | [] => [[c]]
      | p :: ps => (c :: p) :: ps

/-- Python `str.lower` (ASCII range). -/
def lowerStr (l : Str) : Str := l.map Char.toLower

/-- Python `str.upper` (ASCII range). -/
def upperStr (l : Str) : Str := l.map Char.toUpper

/-! ### The source's patterns (`PIIDeidentifier.__init__`) -/

/-- `\b[A-Za-z0-9._%+-]+@[A-Za-z0-9.-]+\.[A-Z|a-z]{2,}\b` -/
def email_pattern : RE :=
  .seq .wb
    (.seq (.rep isEmailLocalChar 1 none)
      (.seq (.lit ['@'])
        (.seq (.rep isEmailDomainChar 1 none)
          (.seq (.lit ['.'])
            (.seq (.rep isEmailTldChar 2 none) .wb)))))

/-- `\s?` -/
def wsOpt : RE := .rep isSpaceChar 0 (some 1)

/-- `\d{lo,hi}` (and `\d+` as `digitsRE 1 none`). -/
def digitsRE (lo : Nat) (hi : Option Nat) : RE := .rep Char.isDigit lo hi

/-- `\+61\s?\d+\s?\d+\s?\d+` -/
def phonePat1 : RE :=
  .seq (.lit ("+61".toList))
    (.seq wsOpt (.seq (digitsRE 1 none)
      (.seq wsOpt (.seq (digitsRE 1 none)
        (.seq wsOpt (digitsRE 1 none))))))

/-- `\b0\d{3}\s?\d{3}\s?\d{3}\b` -/
def phonePat2 : RE :=
  .seq .wb (.seq (.lit ['0'])
    (.seq (digitsRE 3 (some 3)) (.seq wsOpt
      (.seq (digitsRE 3 (some 3)) (.seq wsOpt
        (.seq (digitsRE 3 (some 3)) .wb))))))

/-- `\b\d{9,10}\b` -/
def phonePat3 : RE := .seq .wb (.seq (digitsRE 9 (some 10)) .wb)

/-- `\b\(\d{2}\)\s?\d{4}\s?\d{4}\b` -/
def phonePat4 : RE :=
  .seq .wb (.seq (.lit ['('])
    (.seq (digitsRE 2 (some 2)) (.seq (.lit [')'])
      (.seq wsOpt (.seq (digitsRE 4 (some 4))
        (.seq wsOpt (.seq (digitsRE 4 (some 4)) .wb)))))))

/-- `\b0[2-9]\s?\d{4}\s?\d{4}\b` -/
def phonePat5 : RE :=
  .seq .wb (.seq (.lit ['0'])
    (.seq (.rep (fun c => decide ('2' ≤ c) && decide (c ≤ '9')) 1 (some 1))
      (.seq wsOpt (.seq (digitsRE 4 (some 4))
        (.seq wsOpt (.seq (digitsRE 4 (some 4)) .wb))))))

/-- `self.phone_patterns`, in source order. -/
def phone_patterns : List RE := [phonePat1, phonePat2, phonePat3, phonePat4, phonePat5]

/-- `self.specific_names` (insertion-ordered dict of known full names). -/
def specific_names : List (Str × Str) :=
  [("Zoe W".toList, "Participant A".toList),
   ("James B".toList, "Participant B".toList),
   ("Jason W".toList, "Participant C".toList),
   ("John Smith".toList, "Participant D".toList)]

/-- `self.common_names` (set in `__init__`; never read by any method). -/
def common_names : List Str :=
  ["Zoe".toList, "James".toList, "Jason".toList, "John".toList, "Jane".toList,
   "Michael".toList, "Sarah".toList, "David".toList, "Lisa".toList,
   "Robert".toList, "Mary".toList, "William".toList, "Patricia".toList]

/-- The local `common_first_names` list of `deidentify_names` (same content
as `common_names`). -/
def common_first_names : List Str :=
  ["Zoe".toList, "James".toList, "Jason".toList, "John".toList, "Jane".toList,
   "Michael".toList, "Sarah".toList, "David".toList, "Lisa".toList,
   "Robert".toList, "Mary".toList, "William".toList, "Patricia".toList]

/-- `rf'\b{name}\b(?!\s+[A-Z])'` for a standalone first name. -/
def firstNameRE (name : Str) : RE :=
  .seq .wb (.seq (.lit name)
    (.seq .wb (.nla (.seq (.rep isSpaceChar 1 none) (.rep Char.isUpper 1 (some 1))))))

/-- `\bID:\s*\d+\b` -/
def idPat1 : RE :=
  .seq .wb (.seq (.lit ("ID:".toList))
    (.seq (.rep isSpaceChar 0 none) (.seq (digitsRE 1 none) .wb)))

/-- `\bMobile:\s*\d+\b` -/
def idPat2 : RE :=
  .seq .wb (.seq (.lit ("Mobile:".toList))
    (.seq (.rep isSpaceChar 0 none) (.seq (digitsRE 1 none) .wb)))

/-- `self.id_patterns`, in source order. -/
def id_patterns : List RE := [idPat1, idPat2]

/-! ### Engine state (`PIIDeidentifier.__init__` counters and mappings) -/

structure PIIState where
  email_counter : Nat
  name_counter : Nat
  phone_counter : Nat
  id_counter : Nat
  email_mappings : List (Str × Str)
  name_mappings : List (Str × Str)
  phone_mappings : List (Str × Str)
  id_mappings : List (Str × Str)
deriving DecidableEq, Repr

/-- A fresh `PIIDeidentifier()`: all counters 1, all mappings empty. -/
def initState : PIIState :=
  { email_counter := 1, name_counter := 1, phone_counter := 1, id_counter := 1,
    email_mappings := [], name_mappings := [], phone_mappings := [], id_mappings := [] }

/-! ### Replacement-template expansion (Python `re.sub` string replacement)

`deidentify_names` passes `file_identifier` as the *string* replacement of
`re.sub`.  Python parses such a string as a template: `\\` is a backslash,
`\a \b \f \n \r \t \v` are character escapes, `\0` (with up to two more
octal digits) is an octal escape, `\1`..`\99` are group references (an
error here, since the name patterns have no groups), `\g` starts a named
group reference (likewise an error), any other escaped ASCII letter is
a "bad escape" error, and an escaped non-letter is kept verbatim.  A felled
template raises `re.error`; a replacement string without a backslash is
used literally. -/

def templEscMap (c : Char) : Option Char :=
  if c = 'a' then some '\x07'
  else if c = 'b' then some '\x08'
  else if c = 'f' then some '\x0c'
  else if c = 'n' then some '\n'
  else if c = 'r' then some '\x0d'
  else if c = 't' then some '\t'
  else if c = 'v' then some '\x0b'
  else none

def isOctalDigit (c : Char) : Bool := decide ('0' ≤ c) && decide (c ≤ '7')

/-- The character denoted by `\0` plus up to two further octal digits, and
the rest of the template after them. -/
def octalSpan (cs : Str) : Char × Str :=
  match cs with
  | d1 :: cs1 =>
    if isOctalDigit d1 then
      match cs1 with
      | d2 :: cs2 =>
        if isOctalDigit d2 then
          (Char.ofNat ((d1.toNat - 48) * 8 + (d2.toNat - 48)), cs2)
        else (Char.ofNat (d1.toNat - 48), cs1)
      | [] => (Char.ofNat (d1.toNat - 48), [])
    else ('\x00', cs)
  | [] => ('\x00', cs)

def expandTemplAux : Nat → Str → Option Str
  | 0, _ => none
  | _ + 1, [] => some []
  | fuel + 1, c :: rest =>
    if c = '\\' then
      match rest with
      | [] => none
      | e :: cs =>
        if e = '\\' then (expandTemplAux fuel cs).map (fun t => '\\' :: t)
        else if e = '0' then
          (expandTemplAux fuel (octalSpan cs).2).map (fun t => (octalSpan cs).1 :: t)
        else if e.isDigit then none
        else if e = 'g' then none
        else
          match templEscMap e with
          | some ch => (expandTemplAux fuel cs).map (fun t => ch :: t)
          | none =>
            if e.isAlpha then none
            else (expandTemplAux fuel cs).map (fun t => '\\' :: e :: t)
    else (expandTemplAux fuel rest).map (fun t => c :: t)

/-- Expand a zero-group `re.sub` replacement template; `none` is `re.error`. -/
def expand_template (l : Str) : Option Str := expandTemplAux (l.length + 1) l

/-! ### The four category passes (`deidentify_emails`, `deidentify_phones`,
`deidentify_names`, `deidentify_ids`) and `deidentify_text` -/

/-- Lines 72-77 of the source: domain-routed replacement for a new email. -/
def email_replacement (file_identifier domain : Str) : Str :=
  if containsSub ("gmail.com".toList) domain then file_identifier ++ "@gmail.com".toList
  else if containsSub ("hotmail.com".toList) domain then
    file_identifier ++ "@hotmail.com".toList
  else file_identifier ++ "@example.com".toList

/-- `replace_email` closure of `deidentify_emails`; `none` is the
`IndexError` of `email.split('@')[1]` on a string with no `'@'`. -/
def replace_email (file_identifier : Str) (st : PIIState) (email : Str) :
    Option (PIIState × Str) :=
  match lookupA st.email_mappings email with
  | some v => some (st, v)
  | none =>
    match (splitSep '@' email)[1]? with
    | none => none
    | some domain =>
      let repl := email_replacement file_identifier domain
      some ({ st with email_mappings := st.email_mappings ++ [(email, repl)] }, repl)

def deidentify_emails (st : PIIState) (text : Str) (file_identifier : Str) :
    Option (PIIState × Str) :=
  subSt email_pattern (replace_email file_identifier) st text

/-- Lines 90-95 of the source: format-keeping replacement for a new phone. -/
def phone_replacement (counter : Nat) (phone : Str) : Str :=
  if ['0'].isPrefixOf phone then "0XXX XXX ".toList ++ zfill 3 counter
  else if containsSub ("+61".toList) phone then "+61 XXX XXX ".toList ++ zfill 3 counter
  else "XXX XXX ".toList ++ zfill 3 counter

/-- `replace_phone` closure of `deidentify_phones` (total). -/
def replace_phone (st : PIIState) (phone : Str) : PIIState × Str :=
  match lookupA st.phone_mappings phone with
  | some v => (st, v)
  | none =>
    let repl := phone_replacement st.phone_counter phone
    ({ st with phone_mappings := st.phone_mappings ++ [(phone, repl)],
               phone_counter := st.phone_counter + 1 }, repl)

def deidentify_phones (st : PIIState) (text : Str) : PIIState × Str :=
  phone_patterns.foldl (fun acc pat => subT pat replace_phone acc.1 acc.2) (st, text)

/-- The known-full-name loop of `deidentify_names`: for each table entry,
`re.sub(re.escape(key), file_identifier, text, flags=re.IGNORECASE)` —
only the keys of the table are ever read. -/
def namesKnownPass (table : List (Str × Str)) (repl : Str) (t : Str) : Str :=
  table.foldl (fun t kv => subConst (.liti kv.1) repl t) t

/-- The standalone-first-name loop of `deidentify_names`. -/
def namesFirstPass (repl : Str) (t : Str) : Str :=
  common_first_names.foldl (fun t name => subConst (firstNameRE name) repl t) t

/-- `deidentify_names`: reads only the constant `specific_names` table and
the local first-name list; touches no mutable engine state.  `none` is the
`re.error` raised when `file_identifier` is not a valid replacement
template. -/
def deidentify_names (text : Str) (file_identifier : Str) : Option Str :=
  match expand_template file_identifier with
  | none => none
  | some repl => some (namesFirstPass repl (namesKnownPass specific_names repl text))

/-- Lines 124-131 of the source: replacement for a new matched identifier. -/
def id_replacement (counter : Nat) (id_text : Str) : Str :=
  if containsSub ("ID:".toList) id_text then "ID: ".toList ++ zfill 6 counter
  else if containsSub ("Mobile:".toList) id_text then
    "Mobile: XXXX".toList ++ zfill 3 counter
  else "ID_".toList ++ (toString counter).toList

/-- `replace_id` closure of `deidentify_ids` (total). -/
def replace_id (st : PIIState) (id_text : Str) : PIIState × Str :=
  match lookupA st.id_mappings id_text with
  | some v => (st, v)
  | none =>
    let repl := id_replacement st.id_counter id_text
    ({ st with id_mappings := st.id_mappings ++ [(id_text, repl)],
               id_counter := st.id_counter + 1 }, repl)

def deidentify_ids (st : PIIState) (text : Str) : PIIState × Str :=
  id_patterns.foldl (fun acc pat => subT pat replace_id acc.1 acc.2) (st, text)

/-- `deidentify_text`: email pass (identifier lower-cased), phone pass,
name pass (identifier upper-cased), id pass, in that order. -/
def deidentify_text (st : PIIState) (text : Str) (file_identifier : Str) :
    Option (PIIState × Str) :=
  match deidentify_emails st text (lowerStr file_identifier) with
  | none => none
  | some pr1 =>
    let pr2 := deidentify_phones pr1.1 pr1.2
    match deidentify_names pr2.2 (upperStr file_identifier) with
    | none => none
    | some t3 => some (deidentify_ids pr2.1 t3)

/-- All the recognition patterns the engine ever applies (the name-pass
patterns are fixed; only their replacement depends on the identifier). -/
def allPatterns : List RE :=
  email_pattern :: (phone_patterns ++ specific_names.map (fun kv => RE.liti kv.1)
    ++ common_first_names.map firstNameRE ++ id_patterns)

/-- All three matched-string mapping tables of `st` survive, with their
values, into `st'`. -/
def TablesExtend (st st' : PIIState) : Prop :=
  (∀ k v, lookupA st.email_mappings k = some v → lookupA st'.email_mappings k = some v) ∧
  (∀ k v, lookupA st.phone_mappings k = some v → lookupA st'.phone_mappings k = some v) ∧
  (∀ k v, lookupA st.id_mappings k = some v → lookupA st'.id_mappings k = some v)

/-! ### Association-list (dict) lemmas -/

theorem lookupA_append_of_some (l : List (Str × Str)) (k v : Str) :
    ∀ m : List (Str × Str), lookupA m k = some v → lookupA (m ++ l) k = some v := by
  intro m
  induction m with
  | nil => intro h; simp [lookupA] at h
  | cons kv rest ih =>
    intro h
    by_cases hk : kv.1 = k
    · simp only [lookupA, if_pos hk] at h
      simp only [List.cons_append, lookupA, if_pos hk]
      exact h
    · simp only [lookupA, if_neg hk] at h
      simp only [List.cons_append, lookupA, if_neg hk]
      exact ih h

theorem lookupA_append_self (k r : Str) :
    ∀ m : List (Str × Str), lookupA m k = none → lookupA (m ++ [(k, r)]) k = some r := by
  intro m
  induction m with
  | nil => intro _; simp [lookupA]
  | cons kv rest ih =>
    intro h
    by_cases hk : kv.1 = k
    · simp [lookupA, if_pos hk] at h
    · simp only [lookupA, if_neg hk] at h
      simp only [List.cons_append, lookupA, if_neg hk]
      exact ih h

/-! ### Monotonicity of the mapping tables: entries are never removed -/

theorem tablesExtend_refl (st : PIIState) : TablesExtend st st :=
  ⟨fun _ _ h => h, fun _ _ h => h, fun _ _ h => h⟩

theorem tablesExtend_trans {a b c : PIIState} (h1 : TablesExtend a b)
    (h2 : TablesExtend b c) : TablesExtend a c :=
  ⟨fun k v h => h2.1 k v (h1.1 k v h),
   fun k v h => h2.2.1 k v (h1.2.1 k v h),
   fun k v h => h2.2.2 k v (h1.2.2 k v h)⟩

theorem replace_email_extends (fid : Str) (st : PIIState) (e : Str) (st' : PIIState)
    (r : Str) (h : replace_email fid st e = some (st', r)) : TablesExtend st st' := by
  unfold replace_email at h
  cases hl : lookupA st.email_mappings e with
  | some v =>
    rw [hl] at h
    simp only [Option.some.injEq, Prod.mk.injEq] at h
    rw [← h.1]
    exact tablesExtend_refl st
  | none =>
    rw [hl] at h
    cases hd : (splitSep '@' e)[1]? with
    | none => rw [hd] at h; simp at h
    | some d =>
      rw [hd] at h
      simp only [Option.some.injEq, Prod.mk.injEq] at h
      rw [← h.1]
      refine ⟨fun k v hk => ?_, fun _ _ hk => hk, fun _ _ hk => hk⟩
      exact lookupA_append_of_some _ k v _ hk

theorem replace_phone_extends (st : PIIState) (p : Str) (st' : PIIState) (r : Str)
    (h : replace_phone st p = (st', r)) : TablesExtend st st' := by
  unfold replace_phone at h
  cases hl : lookupA st.phone_mappings p with
  | some v =>
    rw [hl] at h
    simp only [Prod.mk.injEq] at h
    rw [← h.1]
    exact tablesExtend_refl st
  | none =>
    rw [hl] at h
    simp only [Prod.mk.injEq] at h
    rw [← h.1]
    refine ⟨fun _ _ hk => hk, fun k v hk => ?_, fun _ _ hk => hk⟩
    exact lookupA_append_of_some _ k v _ hk

theorem replace_id_extends (st : PIIState) (p : Str) (st' : PIIState) (r : Str)
    (h : replace_id st p = (st', r)) : TablesExtend st st' := by
  unfold replace_id at h
  cases hl : lookupA st.id_mappings p with
  | some v =>
    rw [hl] at h
    simp only [Prod.mk.injEq] at h
    rw [← h.1]
    exact tablesExtend_refl st
  | none =>
    rw [hl] at h
    simp only [Prod.mk.injEq] at h
    rw [← h.1]
    refine ⟨fun _ _ hk => hk, fun _ _ hk => hk, fun k v hk => ?_⟩
    exact lookupA_append_of_some _ k v _ hk

/-- A substitution pass whose replacement function only extends the
relation `R` itself only extends `R` from input to output state. -/
theorem subStAux_rel {σ : Type} (R : σ → σ → Prop)
    (hrefl : ∀ a, R a a) (htrans : ∀ a b c, R a b → R b c → R a c)
    (re : RE) (f : σ → Str → Option (σ × Str))
    (hf : ∀ a m b r, f a m = some (b, r) → R a b) :
    ∀ (fuel : Nat) (st : σ) (prev : Option Char) (s out : Str) (st' : σ),
      subStAux re f fuel st prev s = some (st', out) → R st st' := by
  intro fuel
  induction fuel with
  | zero =>
    intro st prev s out st' h
    simp only [subStAux, Option.some.injEq, Prod.mk.injEq] at h
    rw [← h.1]
    exact hrefl st
  | succ fuel ih =>
    intro st prev s out st' h
    cases s with
    | nil =>
      simp only [subStAux, Option.some.injEq, Prod.mk.injEq] at h
      rw [← h.1]
      exact hrefl st
    | cons c rest =>
      cases hm : matchAt re prev (c :: rest) with
      | none =>
        simp only [subStAux, hm] at h
        cases hrec : subStAux re f fuel st (some c) rest with
        | none => rw [hrec] at h; exact absurd h (by simp)
        | some pr =>
          rw [hrec] at h
          simp only [Option.some.injEq, Prod.mk.injEq] at h
          rw [← h.1]
          exact ih st (some c) rest pr.2 pr.1 (by rw [hrec])
      | some n =>
        cases n with
        | zero =>
          simp only [subStAux, hm] at h
          cases hrec : subStAux re f fuel st (some c) rest with
          | none => rw [hrec] at h; exact absurd h (by simp)
          | some pr =>
            rw [hrec] at h
            simp only [Option.some.injEq, Prod.mk.injEq] at h
            rw [← h.1]
            exact ih st (some c) rest pr.2 pr.1 (by rw [hrec])
        | succ n =>
          simp only [subStAux, hm] at h
          cases hf' : f st ((c :: rest).take (n + 1)) with
          | none => rw [hf'] at h; exact absurd h (by simp)
          | some pr1 =>
            obtain ⟨st1, r1⟩ := pr1
            rw [hf'] at h
            simp only at h
            have hR1 : R st st1 := hf st _ st1 r1 hf'
            cases hrec : subStAux re f fuel st1
                (lastOr prev ((c :: rest).take (n + 1))) ((c :: rest).drop (n + 1)) with
            | none => rw [hrec] at h; exact absurd h (by simp)
            | some pr2 =>
              obtain ⟨st2, out2⟩ := pr2
              rw [hrec] at h
              simp only [Option.some.injEq, Prod.mk.injEq] at h
              rw [← h.1]
              exact htrans st st1 st2 hR1 (ih st1 _ _ out2 st2 hrec)

/-! ### Inversion lemmas for the matcher -/

theorem matchList_seq_mem {a b : RE} {prev : Option Char} {s : Str}
    {pr : Option Char × Str} (h : pr ∈ matchList (RE.seq a b) prev s) :
    ∃ q, q ∈ matchList a prev s ∧ pr ∈ matchList b q.1 q.2 := by
  simpa only [matchList, List.mem_flatMap] using h

theorem matchList_seq_mem2 {a b : RE} {prev : Option Char} {s : Str}
    {pr : Option Char × Str} (h : pr ∈ matchList (RE.seq a b) prev s) :
    ∃ p1 s1, (p1, s1) ∈ matchList a prev s ∧ pr ∈ matchList b p1 s1 := by
  simp only [matchList, List.mem_flatMap] at h
  obtain ⟨⟨p1, s1⟩, hq, hb⟩ := h
  exact ⟨p1, s1, hq, hb⟩

theorem matchList_rep_mem2 {p : Char → Bool} {lo : Nat} {hi : Option Nat}
    {prev p1 : Option Char} {s s1 : Str}
    (h : (p1, s1) ∈ matchList (RE.rep p lo hi) prev s) :
    ∃ k, p1 = lastOr prev (s.take k) ∧ s1 = s.drop k := by
  simp only [matchList, List.mem_map] at h
  obtain ⟨k, _, hk⟩ := h
  rw [Prod.mk.injEq] at hk
  exact ⟨k, hk.1.symm, hk.2.symm⟩

theorem matchList_lit_mem2 {l : Str} {prev p1 : Option Char} {s s1 : Str}
    (h : (p1, s1) ∈ matchList (RE.lit l) prev s) :
    l.isPrefixOf s = true ∧ p1 = lastOr prev (s.take l.length) ∧ s1 = s.drop l.length := by
  simp only [matchList] at h
  split at h
  · next hc =>
    simp only [List.mem_singleton, Prod.mk.injEq] at h
    exact ⟨hc, h.1, h.2⟩
  · simp at h

theorem matchList_wb_mem {prev : Option Char} {s : Str} {pr : Option Char × Str}
    (h : pr ∈ matchList RE.wb prev s) : pr = (prev, s) := by
  simp only [matchList] at h
  split at h
  · simpa using h
  · simp at h

theorem matchList_rep_mem {p : Char → Bool} {lo : Nat} {hi : Option Nat}
    {prev : Option Char} {s : Str} {pr : Option Char × Str}
    (h : pr ∈ matchList (RE.rep p lo hi) prev s) :
    ∃ k, pr = (lastOr prev (s.take k), s.drop k) := by
  simp only [matchList, List.mem_map] at h
  obtain ⟨k, _, hk⟩ := h
  exact ⟨k, hk.symm⟩

theorem matchList_lit_mem {l : Str} {prev : Option Char} {s : Str}
    {pr : Option Char × Str} (h : pr ∈ matchList (RE.lit l) prev s) :
    l.isPrefixOf s = true ∧ pr = (lastOr prev (s.take l.length), s.drop l.length) := by
  simp only [matchList] at h
  split at h
  · next hc => exact ⟨hc, by simpa using h⟩
  · simp at h

/-- Every way a regex matches leaves a remainder no longer than the input. -/
theorem matchList_len (re : RE) :
    ∀ (prev : Option Char) (s : Str) (pr : Option Char × Str),
      pr ∈ matchList re prev s → pr.2.length ≤ s.length := by
  induction re with
  | lit l =>
    intro prev s pr h
    obtain ⟨-, hpr⟩ := matchList_lit_mem h
    rw [hpr]
    simp
  | liti l =>
    intro prev s pr h
    simp only [matchList] at h
    split at h
    · simp only [List.mem_singleton] at h
      rw [h]
      simp
    · simp at h
  | rep p lo hi =>
    intro prev s pr h
    obtain ⟨k, hk⟩ := matchList_rep_mem h
    rw [hk]
    simp
  | seq a b iha ihb =>
    intro prev s pr h
    obtain ⟨q, hq, hb⟩ := matchList_seq_mem h
    exact le_trans (ihb q.1 q.2 pr hb) (iha prev s q hq)
  | wb =>
    intro prev s pr h
    rw [matchList_wb_mem h]
  | nla r ih =>
    intro prev s pr h
    simp only [matchList] at h
    split at h
    · simp only [List.mem_singleton] at h
      rw [h]
    · simp at h

theorem matchAt_mem {re : RE} {prev : Option Char} {s : Str} {n : Nat}
    (h : matchAt re prev s = some n) :
    ∃ pr, pr ∈ matchList re prev s ∧ n = s.length - pr.2.length := by
  unfold matchAt at h
  cases hml : matchList re prev s with
  | nil => rw [hml] at h; simp at h
  | cons pr rest =>
    rw [hml] at h
    simp only [List.head?_cons, Option.map_some', Option.some.injEq] at h
    exact ⟨pr, by simp, h.symm⟩

theorem mem_take_of_drop_cons (a : Char) :
    ∀ (s : Str) (k n : Nat) (t : Str), s.drop k = a :: t → k < n → a ∈ s.take n := by
  intro s
  induction s with
  | nil => intro k n t h _; simp at h
  | cons c s' ih =>
    intro k n t h hk
    cases k with
    | zero =>
      simp only [List.drop_zero, List.cons.injEq] at h
      cases n with
      | zero => omega
      | succ m => simp [List.take_succ_cons, h.1]
    | succ k' =>
      cases n with
      | zero => omega
      | succ m =>
        simp only [List.drop_succ_cons] at h
        simp only [List.take_succ_cons, List.mem_cons]
        exact Or.inr (ih k' m t h (by omega))

theorem isPrefixOf_singleton (a : Char) (l : Str) (h : [a].isPrefixOf l = true) :
    ∃ t, l = a :: t := by
  cases l with
  | nil => simp [List.isPrefixOf] at h
  | cons b t =>
    simp only [List.isPrefixOf, List.isPrefixOf_nil_left, Bool.and_true, beq_iff_eq] at h
    exact ⟨t, by rw [h]⟩

/-- A match of the source's email pattern always contains an `'@'`. -/
theorem email_match_has_at {prev : Option Char} {s : Str} {n : Nat}
    (h : matchAt email_pattern prev s = some n) : '@' ∈ s.take n := by
  obtain ⟨pr, hpr, hn⟩ := matchAt_mem h
  unfold email_pattern at hpr
  obtain ⟨p1, s1, hq1, h2⟩ := matchList_seq_mem2 hpr
  have e1 := matchList_wb_mem hq1
  rw [Prod.mk.injEq] at e1
  obtain ⟨e1a, e1b⟩ := e1
  rw [e1a, e1b] at h2
  obtain ⟨p2, s2, hq2, h3⟩ := matchList_seq_mem2 h2
  obtain ⟨k, -, hk2⟩ := matchList_rep_mem2 hq2
  subst hk2
  obtain ⟨p3, s3, hq3, h4⟩ := matchList_seq_mem2 h3
  obtain ⟨hpre, -, hs3⟩ := matchList_lit_mem2 hq3
  subst hs3
  obtain ⟨t, ht⟩ := isPrefixOf_singleton '@' _ hpre
  have hlen4 := matchList_len _ _ _ _ h4
  have hdl : (List.drop k s).length = s.length - k := List.length_drop k s
  have htl : (List.drop k s).length = t.length + 1 := by rw [ht]; simp
  have hq3l : ((List.drop k s).drop ([('@' : Char)].length)).length = t.length := by
    rw [ht]; simp
  rw [hq3l] at hlen4
  apply mem_take_of_drop_cons '@' s k n t ht
  omega

/-! ### `splitSep` produces at least two chunks when the separator occurs -/

theorem splitSep_ne_nil (sep : Char) : ∀ l : Str, splitSep sep l ≠ [] := by
  intro l
  induction l with
  | nil => simp [splitSep]
  | cons c rest ih =>
    by_cases hc : c = sep
    · simp [splitSep, if_pos hc]
    · simp only [splitSep, if_neg hc]
      cases hs : splitSep sep rest with
      | nil => exact absurd hs ih
      | cons p ps => simp

theorem splitSep_len2 (sep : Char) :
    ∀ l : Str, sep ∈ l → 2 ≤ (splitSep sep l).length := by
  intro l
  induction l with
  | nil => intro h; simp at h
  | cons c rest ih =>
    intro h
    by_cases hc : c = sep
    · simp only [splitSep, if_pos hc, List.length_cons]
      have h1 : splitSep sep rest ≠ [] := splitSep_ne_nil sep rest
      have h2 : 1 ≤ (splitSep sep rest).length := by
        cases hs : splitSep sep rest with
        | nil => exact absurd hs h1
        | cons p ps => simp
      omega
    · have hmem : sep ∈ rest := by
        cases List.mem_cons.mp h with
        | inl he => exact absurd he.symm hc
        | inr hm => exact hm
      have h2 := ih hmem
      simp only [splitSep, if_neg hc]
      cases hs : splitSep sep rest with
      | nil => exact absurd hs (splitSep_ne_nil sep rest)
      | cons p ps =>
        rw [hs] at h2
        simpa using h2

theorem getElem1_of_len2 {α : Type} : ∀ l : List α, 2 ≤ l.length → ∃ d, l[1]? = some d := by
  intro l h
  cases l with
  | nil => simp at h
  | cons a t =>
    cases t with
    | nil => simp at h
    | cons b t2 => exact ⟨b, by simp⟩

/-! ### Totality of substitution passes -/

/-- If the replacement function succeeds on every string the pattern can
match, the whole substitution pass succeeds. -/
theorem subStAux_isSome {σ : Type} (re : RE) (f : σ → Str → Option (σ × Str))
    (H : ∀ (st : σ) (prev : Option Char) (s : Str) (n : Nat),
      matchAt re prev s = some (n + 1) → (f st (s.take (n + 1))).isSome = true) :
    ∀ (fuel : Nat) (st : σ) (prev : Option Char) (s : Str),
      (subStAux re f fuel st prev s).isSome = true := by
  intro fuel
  induction fuel with
  | zero => intro st prev s; simp [subStAux]
  | succ fuel ih =>
    intro st prev s
    cases s with
    | nil => simp [subStAux]
    | cons c rest =>
      cases hm : matchAt re prev (c :: rest) with
      | none =>
        simp only [subStAux, hm]
        cases hrec : subStAux re f fuel st (some c) rest with
        | none => have := ih st (some c) rest; rw [hrec] at this; simp at this
        | some pr => simp
      | some n =>
        cases n with
        | zero =>
          simp only [subStAux, hm]
          cases hrec : subStAux re f fuel st (some c) rest with
          | none => have := ih st (some c) rest; rw [hrec] at this; simp at this
          | some pr => simp
        | succ n =>
          simp only [subStAux, hm]
          have hf := H st prev (c :: rest) n hm
          cases hf' : f st ((c :: rest).take (n + 1)) with
          | none => rw [hf'] at hf; simp at hf
          | some pr1 =>
            obtain ⟨st1, r1⟩ := pr1
            simp only
            cases hrec : subStAux re f fuel st1
                (lastOr prev ((c :: rest).take (n + 1))) ((c :: rest).drop (n + 1)) with
            | none =>
              have := ih st1 (lastOr prev ((c :: rest).take (n + 1))) ((c :: rest).drop (n + 1))
              rw [hrec] at this
              simp at this
            | some pr2 => simp

theorem subSt_isSome {σ : Type} (re : RE) (f : σ → Str → Option (σ × Str))
    (H : ∀ (st : σ) (prev : Option Char) (s : Str) (n : Nat),
      matchAt re prev s = some (n + 1) → (f st (s.take (n + 1))).isSome = true)
    (st : σ) (s : Str) : (subSt re f st s).isSome = true :=
  subStAux_isSome re f H (s.length + 1) st none s

/-- For a replacement function that never fails, `subSt` computes `subT`. -/
theorem subSt_eq_subT {σ : Type} (re : RE) (f : σ → Str → σ × Str) (st : σ) (s : Str) :
    subSt re (fun a m => some (f a m)) st s = some (subT re f st s) := by
  unfold subT
  cases h : subSt re (fun a m => some (f a m)) st s with
  | none =>
    have := subSt_isSome re (fun a m => some (f a m)) (fun _ _ _ _ _ => rfl) st s
    rw [h] at this
    simp at this
  | some pr => rfl

/-! ### Texts without a match pass through unchanged -/

theorem subStAux_no_search {σ : Type} (re : RE) (f : σ → Str → Option (σ × Str)) :
    ∀ (fuel : Nat) (st : σ) (prev : Option Char) (s : Str),
      reSearchAux re prev s = false → subStAux re f fuel st prev s = some (st, s) := by
  intro fuel
  induction fuel with
  | zero => intro st prev s _; simp [subStAux]
  | succ fuel ih =>
    intro st prev s hns
    cases s with
    | nil => simp [subStAux]
    | cons c rest =>
      unfold reSearchAux at hns
      rw [Bool.or_eq_false_iff] at hns
      obtain ⟨hm0, hrest⟩ := hns
      cases hm : matchAt re prev (c :: rest) with
      | some n => rw [hm] at hm0; simp at hm0
      | none =>
        simp only [subStAux, hm]
        rw [ih st (some c) rest hrest]

theorem subT_no_search {σ : Type} (re : RE) (f : σ → Str → σ × Str) (st : σ) (s : Str)
    (h : reSearch re s = false) : subT re f st s = (st, s) := by
  unfold subT subSt
  rw [subStAux_no_search re _ (s.length + 1) st none s h]

/-! ### Template expansion is the identity on backslash-free strings -/

theorem expandTemplAux_no_backslash :
    ∀ (fuel : Nat) (l : Str), l.length < fuel → '\\' ∉ l →
      expandTemplAux fuel l = some l := by
  intro fuel
  induction fuel with
  | zero => intro l h _; exact absurd h (Nat.not_lt_zero _)
  | succ fuel ih =>
    intro l hlen hc
    cases l with
    | nil => simp [expandTemplAux]
    | cons c rest =>
      have hcne : c ≠ '\\' := fun he => hc (he ▸ List.mem_cons_self c rest)
      simp only [expandTemplAux, if_neg hcne]
      rw [ih rest (by simpa using Nat.lt_of_succ_lt_succ hlen)
        (fun hm => hc (List.mem_cons_of_mem c hm))]
      rfl

theorem expand_template_no_backslash (l : Str) (h : '\\' ∉ l) :
    expand_template l = some l :=
  expandTemplAux_no_backslash (l.length + 1) l (Nat.lt_succ_self _) h

/-- `str.upper` cannot create a backslash. -/
theorem toUpper_ne_backslash (c : Char) (h : c ≠ '\\') : Char.toUpper c ≠ '\\' := by
  unfold Char.toUpper
  show (if c.toNat ≥ 97 ∧ c.toNat ≤ 122 then Char.ofNat (c.toNat - 32) else c) ≠ '\\'
  split
  · next hcond =>
    obtain ⟨h1, h2⟩ := hcond
    have hm1 : 65 ≤ c.toNat - 32 := by omega
    have hm2 : c.toNat - 32 ≤ 90 := by omega
    generalize c.toNat - 32 = m at hm1 hm2
    interval_cases m <;> decide
  · exact h

theorem upperStr_no_backslash (l : Str) (h : '\\' ∉ l) : '\\' ∉ upperStr l := by
  unfold upperStr
  intro hmem
  rw [List.mem_map] at hmem
  obtain ⟨c, hcl, hcu⟩ := hmem
  exact toUpper_ne_backslash c (fun he => h (he ▸ hcl)) hcu

/-! ### Pass-level lemmas -/

theorem replace_email_isSome (fid : Str) (st : PIIState) (prev : Option Char) (s : Str)
    (n : Nat) (hm : matchAt email_pattern prev s = some (n + 1)) :
    (replace_email fid st (s.take (n + 1))).isSome = true := by
  unfold replace_email
  cases hl : lookupA st.email_mappings (s.take (n + 1)) with
  | some v => simp
  | none =>
    have hat : '@' ∈ s.take (n + 1) := email_match_has_at hm
    obtain ⟨d, hd⟩ := getElem1_of_len2 _ (splitSep_len2 '@' _ hat)
    rw [hd]
    simp

theorem deidentify_emails_isSome (st : PIIState) (t fid : Str) :
    (deidentify_emails st t fid).isSome = true :=
  subSt_isSome email_pattern (replace_email fid)
    (fun st prev s n hm => replace_email_isSome fid st prev s n hm) st t

theorem deidentify_emails_extends (st : PIIState) (t fid : Str) (st' : PIIState)
    (out : Str) (h : deidentify_emails st t fid = some (st', out)) : TablesExtend st st' :=
  subStAux_rel TablesExtend tablesExtend_refl (fun _ _ _ hab hbc => tablesExtend_trans hab hbc)
    email_pattern (replace_email fid) (fun a m b r hf => replace_email_extends fid a m b r hf)
    (t.length + 1) st none t out st' h

theorem subT_extends (f : PIIState → Str → PIIState × Str)
    (hf : ∀ a m b r, f a m = (b, r) → TablesExtend a b) (pat : RE) (st : PIIState)
    (t : Str) : TablesExtend st (subT pat f st t).1 :=
  subStAux_rel TablesExtend tablesExtend_refl (fun _ _ _ hab hbc => tablesExtend_trans hab hbc)
    pat (fun a m => some (f a m)) (fun a m b r hfam => hf a m b r (Option.some.inj hfam))
    (t.length + 1) st none t (subT pat f st t).2 (subT pat f st t).1
    (subSt_eq_subT pat f st t)

theorem foldl_subT_extends (f : PIIState → Str → PIIState × Str)
    (hstep : ∀ (st : PIIState) (t : Str) (pat : RE), TablesExtend st (subT pat f st t).1) :
    ∀ (pats : List RE) (acc : PIIState × Str),
      TablesExtend acc.1 (pats.foldl (fun acc pat => subT pat f acc.1 acc.2) acc).1 := by
  intro pats
  induction pats with
  | nil => intro acc; exact tablesExtend_refl _
  | cons p ps ih =>
    intro acc
    exact tablesExtend_trans (hstep acc.1 acc.2 p) (ih _)

theorem deidentify_phones_extends (st : PIIState) (t : Str) :
    TablesExtend st (deidentify_phones st t).1 :=
  foldl_subT_extends replace_phone
    (fun st t pat => subT_extends replace_phone
      (fun a m b r h => replace_phone_extends a m b r h) pat st t)
    phone_patterns (st, t)

theorem deidentify_ids_extends (st : PIIState) (t : Str) :
    TablesExtend st (deidentify_ids st t).1 :=
  foldl_subT_extends replace_id
    (fun st t pat => subT_extends replace_id
      (fun a m b r h => replace_id_extends a m b r h) pat st t)
    id_patterns (st, t)

theorem deidentify_text_extends (st : PIIState) (t fid : Str) (st' : PIIState)
    (out : Str) (h : deidentify_text st t fid = some (st', out)) : TablesExtend st st' := by
  unfold deidentify_text at h
  cases he : deidentify_emails st t (lowerStr fid) with
  | none => rw [he] at h; exact absurd h (by simp)
  | some pr1 =>
    obtain ⟨st1, t1⟩ := pr1
    rw [he] at h
    simp only at h
    cases hn : deidentify_names (deidentify_phones st1 t1).2 (upperStr fid) with
    | none => rw [hn] at h; exact absurd h (by simp)
    | some t3 =>
      rw [hn] at h
      rw [Option.some.injEq] at h
      have h1 : TablesExtend st st1 := deidentify_emails_extends st t (lowerStr fid) st1 t1 he
      have h2 : TablesExtend st1 (deidentify_phones st1 t1).1 :=
        deidentify_phones_extends st1 t1
      have h3 : TablesExtend (deidentify_phones st1 t1).1
          (deidentify_ids (deidentify_phones st1 t1).1 t3).1 :=
        deidentify_ids_extends (deidentify_phones st1 t1).1 t3
      have hst : st' = (deidentify_ids (deidentify_phones st1 t1).1 t3).1 := by rw [h]
      rw [hst]
      exact tablesExtend_trans h1 (tablesExtend_trans h2 h3)

theorem deidentify_emails_no_search (st : PIIState) (t fid : Str)
    (h : reSearch email_pattern t = false) : deidentify_emails st t fid = some (st, t) :=
  subStAux_no_search email_pattern (replace_email fid) (t.length + 1) st none t h

theorem foldl_subT_no_search {σ : Type} (f : σ → Str → σ × Str) :
    ∀ (pats : List RE) (st : σ) (t : Str), (∀ pat ∈ pats, reSearch pat t = false) →
      pats.foldl (fun acc pat => subT pat f acc.1 acc.2) (st, t) = (st, t) := by
  intro pats
  induction pats with
  | nil => intro st t _; rfl
  | cons p ps ih =>
    intro st t h
    rw [List.foldl_cons]
    show List.foldl _ (subT p f st t) ps = (st, t)
    rw [subT_no_search p f st t (h p (List.mem_cons_self p ps))]
    exact ih st t (fun pat hp => h pat (List.mem_cons_of_mem p hp))

theorem subConst_no_search (re : RE) (repl t : Str) (h : reSearch re t = false) :
    subConst re repl t = t := by
  unfold subConst
  rw [subT_no_search re _ () t h]

theorem namesKnownPass_no_search (repl t : Str) :
    ∀ table : List (Str × Str), (∀ kv ∈ table, reSearch (RE.liti kv.1) t = false) →
      namesKnownPass table repl t = t := by
  intro table
  induction table with
  | nil => intro _; rfl
  | cons kv rest ih =>
    intro h
    unfold namesKnownPass
    rw [List.foldl_cons]
    rw [subConst_no_search _ repl t (h kv (List.mem_cons_self kv rest))]
    exact ih (fun kv2 hk2 => h kv2 (List.mem_cons_of_mem kv hk2))

theorem namesFirstPass_no_search (repl t : Str)
    (h : ∀ name ∈ common_first_names, reSearch (firstNameRE name) t = false) :
    namesFirstPass repl t = t := by
  unfold namesFirstPass
  have haux : ∀ (names : List Str), (∀ name ∈ names, reSearch (firstNameRE name) t = false) →
      names.foldl (fun t name => subConst (firstNameRE name) repl t) t = t := by
    intro names
    induction names with
    | nil => intro _; rfl
    | cons nm rest ih =>
      intro h2
      rw [List.foldl_cons, subConst_no_search _ repl t (h2 nm (List.mem_cons_self nm rest))]
      exact ih (fun n2 hn2 => h2 n2 (List.mem_cons_of_mem nm hn2))
  exact haux common_first_names h

theorem mem_allPatterns_phone {pat : RE} (h : pat ∈ phone_patterns) : pat ∈ allPatterns := by
  simp only [allPatterns, List.mem_cons, List.mem_append]
  exact Or.inr (Or.inl (Or.inl (Or.inl h)))

theorem mem_allPatterns_names1 {kv : Str × Str} (h : kv ∈ specific_names) :
    RE.liti kv.1 ∈ allPatterns := by
  simp only [allPatterns, List.mem_cons, List.mem_append]
  exact Or.inr (Or.inl (Or.inl (Or.inr (List.mem_map_of_mem _ h))))

theorem mem_allPatterns_names2 {name : Str} (h : name ∈ common_first_names) :
    firstNameRE name ∈ allPatterns := by
  simp only [allPatterns, List.mem_cons, List.mem_append]
  exact Or.inr (Or.inl (Or.inr (List.mem_map_of_mem _ h)))

theorem mem_allPatterns_ids {pat : RE} (h : pat ∈ id_patterns) : pat ∈ allPatterns := by
  simp only [allPatterns, List.mem_cons, List.mem_append]
  exact Or.inr (Or.inr h)

/-- The known-full-name loop reads only the keys of its table. -/
theorem namesKnownPass_keys (repl : Str) :
    ∀ (t1 t2 : List (Str × Str)), t1.map Prod.fst = t2.map Prod.fst →
      ∀ t : Str, namesKnownPass t1 repl t = namesKnownPass t2 repl t := by
  intro t1
  induction t1 with
  | nil =>
    intro t2 h t
    cases t2 with
    | nil => rfl
    | cons a b => simp at h
  | cons kv rest ih =>
    intro t2 h t
    cases t2 with
    | nil => simp at h
    | cons kv2 rest2 =>
      simp only [List.map_cons, List.cons.injEq] at h
      unfold namesKnownPass
      rw [List.foldl_cons, List.foldl_cons]
      show namesKnownPass rest repl _ = namesKnownPass rest2 repl _
      rw [h.1]
      exact ih rest2 h.2 _

/-! ### The claims -/

set_option maxRecDepth 10000
set_option maxHeartbeats 1000000

/-- Claim C1: for every engine instance and each of the email, phone and
identifier categories, the per-category mapping table is consulted before a
replacement is generated (a cached original resolves to its cached
replacement with the state unchanged), every generated replacement is
recorded in the table under the original matched string, and a full
`deidentify_text` call never removes an entry from any table — hence the
same original matched string, substituted more than once in the instance's
lifetime, is always substituted by the identical replacement string. -/
theorem C1_mapping_consistency :
    (∀ (st : PIIState) (fid e v : Str), lookupA st.email_mappings e = some v →
      replace_email fid st e = some (st, v)) ∧
    (∀ (st : PIIState) (p v : Str), lookupA st.phone_mappings p = some v →
      replace_phone st p = (st, v)) ∧
    (∀ (st : PIIState) (i v : Str), lookupA st.id_mappings i = some v →
      replace_id st i = (st, v)) ∧
    (∀ (st : PIIState) (fid e : Str) (st' : PIIState) (r : Str),
      replace_email fid st e = some (st', r) → lookupA st'.email_mappings e = some r) ∧
    (∀ (st : PIIState) (p : Str) (st' : PIIState) (r : Str),
      replace_phone st p = (st', r) → lookupA st'.phone_mappings p = some r) ∧
    (∀ (st : PIIState) (i : Str) (st' : PIIState) (r : Str),
      replace_id st i = (st', r) → lookupA st'.id_mappings i = some r) ∧
    (∀ (st : PIIState) (t fid : Str) (st' : PIIState) (out : Str),
      deidentify_text st t fid = some (st', out) → TablesExtend st st') := by
  refine ⟨?_, ?_, ?_, ?_, ?_, ?_, ?_⟩
  · intro st fid e v h
    simp [replace_email, h]
  · intro st p v h
    simp [replace_phone, h]
  · intro st i v h
    simp [replace_id, h]
  · intro st fid e st' r h
    unfold replace_email at h
    cases hl : lookupA st.email_mappings e with
    | some v =>
      rw [hl] at h
      simp only [Option.some.injEq, Prod.mk.injEq] at h
      rw [← h.1, ← h.2]
      exact hl
    | none =>
      rw [hl] at h
      cases hd : (splitSep '@' e)[1]? with
      | none => rw [hd] at h; exact absurd h (by simp)
      | some d =>
        rw [hd] at h
        simp only [Option.some.injEq, Prod.mk.injEq] at h
        rw [← h.1, ← h.2]
        exact lookupA_append_self e _ _ hl
  · intro st p st' r h
    unfold replace_phone at h
    cases hl : lookupA st.phone_mappings p with
    | some v =>
      rw [hl] at h
      simp only [Prod.mk.injEq] at h
      rw [← h.1, ← h.2]
      exact hl
    | none =>
      rw [hl] at h
      simp only [Prod.mk.injEq] at h
      rw [← h.1, ← h.2]
      exact lookupA_append_self p _ _ hl
  · intro st i st' r h
    unfold replace_id at h
    cases hl : lookupA st.id_mappings i with
    | some v =>
      rw [hl] at h
      simp only [Prod.mk.injEq] at h
      rw [← h.1, ← h.2]
      exact hl
    | none =>
      rw [hl] at h
      simp only [Prod.mk.injEq] at h
      rw [← h.1, ← h.2]
      exact lookupA_append_self i _ _ hl
  · intro st t fid st' out h
    exact deidentify_text_extends st t fid st' out h

/-- Claim C1 witness: the consult-first, record and never-remove parts of
`C1_mapping_consistency` instantiated at concrete engine states. -/
theorem C1_mapping_consistency_witness :
    replace_phone
        { initState with phone_mappings := [("0412 345 678".toList, "0XXX XXX 001".toList)] }
        ("0412 345 678".toList)
      = ({ initState with
            phone_mappings := [("0412 345 678".toList, "0XXX XXX 001".toList)] },
          "0XXX XXX 001".toList) ∧
    lookupA (replace_id initState ("ID: 55".toList)).1.id_mappings ("ID: 55".toList)
      = some (replace_id initState ("ID: 55".toList)).2 ∧
    TablesExtend initState initState :=
  ⟨C1_mapping_consistency.2.1 _ _ _ (by decide),
   C1_mapping_consistency.2.2.2.2.2.1 initState ("ID: 55".toList) _ _ rfl,
   C1_mapping_consistency.2.2.2.2.2.2 initState [] [] initState [] (by decide)⟩

/-- Claim C2: `deidentify_text` applies exactly the four passes strictly in
order — email pass with the identifier lower-cased, then phone pass, then
name pass with the identifier upper-cased, then identifier pass — and
returns the result. -/
theorem C2_pipeline_order (st : PIIState) (t fid : Str) :
    deidentify_text st t fid =
      match deidentify_emails st t (lowerStr fid) with
      | none => none
      | some pr1 =>
        match deidentify_names (deidentify_phones pr1.1 pr1.2).2 (upperStr fid) with
        | none => none
        | some t3 => some (deidentify_ids (deidentify_phones pr1.1 pr1.2).1 t3) := rfl

/-- Claim C3: a new email's replacement is determined solely by the domain
part (`email.split('@')[1]`) and the identifier — a domain containing
`gmail.com` routes to `{identifier}@gmail.com`, one containing
`hotmail.com` to `{identifier}@hotmail.com`, anything else to
`{identifier}@example.com` — and the replacement is stored in the email
mapping table under the original matched string. -/
theorem C3_email_routing (st : PIIState) (fid e d : Str)
    (h1 : lookupA st.email_mappings e = none)
    (h2 : (splitSep '@' e)[1]? = some d) :
    replace_email fid st e =
      some ({ st with email_mappings :=
                st.email_mappings ++ [(e, email_replacement fid d)] },
            email_replacement fid d) ∧
    email_replacement fid d =
      (if containsSub ("gmail.com".toList) d then fid ++ "@gmail.com".toList
       else if containsSub ("hotmail.com".toList) d then fid ++ "@hotmail.com".toList
       else fid ++ "@example.com".toList) := by
  constructor
  · unfold replace_email
    rw [h1, h2]
  · rfl

/-- Claim C3 witness: `C3_email_routing` applied to `a@b.com` with
identifier `doc1` on a fresh engine. -/
theorem C3_email_routing_witness :
    replace_email ("doc1".toList) initState ("a@b.com".toList) =
      some ({ initState with email_mappings :=
                [("a@b.com".toList, email_replacement ("doc1".toList) ("b.com".toList))] },
            email_replacement ("doc1".toList) ("b.com".toList)) :=
  (C3_email_routing initState ("doc1".toList) ("a@b.com".toList) ("b.com".toList)
    rfl (by decide)).1

/-- Claim C4: the phone pass applies its five patterns one after another,
each over the output of the previous pattern's pass; all five share the
`replace_phone` rule with one counter that is incremented exactly when a
previously unseen value is replaced; a new value's replacement is
`0XXX XXX {counter:03d}` if the original starts with `0`, else
`+61 XXX XXX {counter:03d}` if it contains `+61`, else
`XXX XXX {counter:03d}`, with the counter zero-padded to three digits. -/
theorem C4_phone_pass :
    (∀ (st : PIIState) (t : Str),
      deidentify_phones st t =
        (let a1 := subT phonePat1 replace_phone st t
         let a2 := subT phonePat2 replace_phone a1.1 a1.2
         let a3 := subT phonePat3 replace_phone a2.1 a2.2
         let a4 := subT phonePat4 replace_phone a3.1 a3.2
         subT phonePat5 replace_phone a4.1 a4.2)) ∧
    (∀ (st : PIIState) (p v : Str), lookupA st.phone_mappings p = some v →
      replace_phone st p = (st, v)) ∧
    (∀ (st : PIIState) (p : Str), lookupA st.phone_mappings p = none →
      replace_phone st p =
        ({ st with
            phone_mappings :=
              st.phone_mappings ++ [(p, phone_replacement st.phone_counter p)],
            phone_counter := st.phone_counter + 1 },
         phone_replacement st.phone_counter p)) ∧
    (∀ (c : Nat) (p : Str), phone_replacement c p =
      (if ['0'].isPrefixOf p then "0XXX XXX ".toList ++ zfill 3 c
       else if containsSub ("+61".toList) p then "+61 XXX XXX ".toList ++ zfill 3 c
       else "XXX XXX ".toList ++ zfill 3 c)) := by
  refine ⟨?_, ?_, ?_, ?_⟩
  · intro st t
    rfl
  · intro st p v h
    simp [replace_phone, h]
  · intro st p h
    unfold replace_phone
    rw [h]
  · intro c p
    rfl

/-- Claim C4 witness: `C4_phone_pass` instantiated — a cached phone keeps
its replacement and the counter, a fresh phone starting with `0` gets
`0XXX XXX 001` and bumps the shared counter. -/
theorem C4_phone_pass_witness :
    replace_phone { initState with phone_mappings := [("+61 2".toList, "x".toList)] }
        ("+61 2".toList)
      = ({ initState with phone_mappings := [("+61 2".toList, "x".toList)] }, "x".toList) ∧
    replace_phone initState ("0412 345 678".toList) =
      ({ initState with
          phone_mappings :=
            [("0412 345 678".toList, phone_replacement 1 ("0412 345 678".toList))],
          phone_counter := 2 },
       phone_replacement 1 ("0412 345 678".toList)) :=
  ⟨C4_phone_pass.2.1 _ _ _ (by decide),
   C4_phone_pass.2.2.1 initState ("0412 345 678".toList) (by decide)⟩

/-- Claim C5: the email cache wins over a later call's identifier: a cached
email resolves to its cached replacement whatever identifier is passed, so
calling the pass twice on the same engine with the same email and different
identifiers yields the first call's replacement both times (concrete
two-call scenario over `deidentify_emails` included). -/
theorem C5_email_cache_wins :
    (∀ (st : PIIState) (fidA fidB e v : Str), lookupA st.email_mappings e = some v →
      replace_email fidA st e = some (st, v) ∧ replace_email fidB st e = some (st, v)) ∧
    ((deidentify_emails initState ("x y a@b.org".toList) ("alice".toList)).map
        (fun r => r.2) = some ("x y alice@example.com".toList)) ∧
    (((deidentify_emails initState ("x y a@b.org".toList) ("alice".toList)).bind
        (fun r => deidentify_emails r.1 ("a@b.org".toList) ("bob".toList))).map
        (fun r => r.2) = some ("alice@example.com".toList)) := by
  refine ⟨?_, by decide, by decide⟩
  intro st fidA fidB e v h
  exact ⟨by simp [replace_email, h], by simp [replace_email, h]⟩

/-- Claim C5 witness: `C5_email_cache_wins` applied with identifier `bob`
to an engine that already cached `a@b.org ↦ alice@example.com`. -/
theorem C5_email_cache_wins_witness :
    replace_email ("bob".toList)
        { initState with
            email_mappings := [("a@b.org".toList, "alice@example.com".toList)] }
        ("a@b.org".toList)
      = some ({ initState with
                  email_mappings := [("a@b.org".toList, "alice@example.com".toList)] },
              "alice@example.com".toList) :=
  (C5_email_cache_wins.1 _ ("alice".toList) ("bob".toList) _ _ (by decide)).2

/-- Claim C6: in the name pass every occurrence of each of the four listed
known full names, matched case-insensitively as a literal substring, is
replaced by the document identifier passed to the call; the table's
right-hand role labels (`Participant A`..`Participant D`) are never read —
the pass is invariant under replacing them — and do not appear in the
output as a result of this pass. -/
theorem C6_name_pass_identifier :
    (∀ (table : List (Str × Str)) (repl t : Str),
      table.map Prod.fst = specific_names.map Prod.fst →
      namesKnownPass table repl t = namesKnownPass specific_names repl t) ∧
    (deidentify_names ("zoe w, JAMES B, Jason w, John smith".toList) ("DOC7".toList)
      = some ("DOC7, DOC7, DOC7, DOC7".toList)) ∧
    (containsSub ("Participant".toList) ("DOC7, DOC7, DOC7, DOC7".toList) = false) := by
  refine ⟨?_, by decide, by decide⟩
  intro table repl t h
  exact namesKnownPass_keys repl table specific_names h t

/-- Claim C6 witness: `C6_name_pass_identifier` applied to a table with the
same known names but blanked-out role labels. -/
theorem C6_name_pass_identifier_witness :
    namesKnownPass
        [("Zoe W".toList, []), ("James B".toList, []),
         ("Jason W".toList, []), ("John Smith".toList, [])]
        ("ID9".toList) ("Zoe W and James B".toList)
      = namesKnownPass specific_names ("ID9".toList) ("Zoe W and James B".toList) :=
  C6_name_pass_identifier.1 _ ("ID9".toList) ("Zoe W and James B".toList) (by decide)

/-- Claim C7: on a fresh engine, the spec's scenario input with identifier
`doc1` yields an output containing `doc1@example.com`, a phone string
matching `\+61 XXX XXX \d{3}`, an identifier string matching `ID: \d{6}`,
and none of the three original values. -/
theorem C7_scenario_doc1 :
    (deidentify_text initState
      ("Email: john@example.com, Phone: +61 2 1234 5678, ID: 987654".toList)
      ("doc1".toList)).map
      (fun r => (containsSub ("doc1@example.com".toList) r.2,
                 reSearch (RE.seq (.lit ("+61 XXX XXX ".toList)) (digitsRE 3 (some 3))) r.2,
                 reSearch (RE.seq (.lit ("ID: ".toList)) (digitsRE 6 (some 6))) r.2,
                 containsSub ("john@example.com".toList) r.2,
                 containsSub ("+61 2 1234 5678".toList) r.2,
                 containsSub ("987654".toList) r.2))
    = some (true, true, true, false, false, false) := by decide

/-- Claim C8, the code evaluated at the failing input: on a fresh engine the
input `ID: 000001` is matched by the identifier pattern (the run records an
entry keyed by it) and the generated replacement is the original string
itself, so the matched original appears verbatim in the output — the
no-leakage property fails outside the bare-digit-run exclusion. -/
theorem C8_no_leakage_failing :
    (deidentify_text initState ("ID: 000001".toList) ("doc1".toList)).map
      (fun r => (r.2, lookupA r.1.id_mappings ("ID: 000001".toList)))
    = some ("ID: 000001".toList, some ("ID: 000001".toList)) := by decide

/-- Claim C9 counterexample: with text `John Smith` and identifier `\1`,
the name pass's `re.sub` replacement template is an invalid group
reference, so `deidentify_text` raises `re.error` — refuting the claim for
every text and identifier. -/
theorem C9_claim_counterexample :
    deidentify_text initState ("John Smith".toList) ("\\1".toList) = none := by decide

/-- Claim C9 (amended): for every engine state, text and identifier whose
characters include no backslash (so the identifier is valid as a literal
substitution replacement), `deidentify_text` raises no error and terminates
with a result, and a text in which no recognized pattern matches is
returned unchanged with the state untouched. -/
theorem C9_engine_total (st : PIIState) (t fid : Str) (hfid : '\\' ∉ fid) :
    ((deidentify_text st t fid).isSome = true) ∧
    ((∀ re ∈ allPatterns, reSearch re t = false) →
      deidentify_text st t fid = some (st, t)) := by
  have hexp : expand_template (upperStr fid) = some (upperStr fid) :=
    expand_template_no_backslash _ (upperStr_no_backslash fid hfid)
  constructor
  · unfold deidentify_text
    have hsome := deidentify_emails_isSome st t (lowerStr fid)
    cases he : deidentify_emails st t (lowerStr fid) with
    | none => rw [he] at hsome; simp at hsome
    | some pr1 =>
      obtain ⟨st1, t1⟩ := pr1
      simp only
      have hn : deidentify_names (deidentify_phones st1 t1).2 (upperStr fid)
          = some (namesFirstPass (upperStr fid)
              (namesKnownPass specific_names (upperStr fid) (deidentify_phones st1 t1).2)) := by
        unfold deidentify_names
        rw [hexp]
      rw [hn]
      rfl
  · intro hall
    have hem : reSearch email_pattern t = false :=
      hall email_pattern (List.mem_cons_self _ _)
    unfold deidentify_text
    rw [deidentify_emails_no_search st t (lowerStr fid) hem]
    simp only
    have hph : deidentify_phones st t = (st, t) :=
      foldl_subT_no_search replace_phone phone_patterns st t
        (fun pat hp => hall pat (mem_allPatterns_phone hp))
    rw [hph]
    have hkp : namesKnownPass specific_names (upperStr fid) t = t :=
      namesKnownPass_no_search (upperStr fid) t specific_names
        (fun kv hk => hall _ (mem_allPatterns_names1 hk))
    have hfp : namesFirstPass (upperStr fid) t = t :=
      namesFirstPass_no_search (upperStr fid) t
        (fun nm hn => hall _ (mem_allPatterns_names2 hn))
    have hnames : deidentify_names t (upperStr fid) = some t := by
      unfold deidentify_names
      rw [hexp]
      show some (namesFirstPass (upperStr fid) (namesKnownPass specific_names (upperStr fid) t))
        = some t
      rw [hkp, hfp]
    rw [hnames]
    have hid : deidentify_ids st t = (st, t) :=
      foldl_subT_no_search replace_id id_patterns st t
        (fun pat hp => hall pat (mem_allPatterns_ids hp))
    show some (deidentify_ids st t) = some (st, t)
    rw [hid]

/-- Claim C9 witness: `C9_engine_total` applied to a fresh engine, a text
with no pattern match and the backslash-free identifier `doc1`. -/
theorem C9_engine_total_witness :
    deidentify_text initState ("-- no pii here --".toList) ("doc1".toList)
      = some (initState, "-- no pii here --".toList) :=
  (C9_engine_total initState ("-- no pii here --".toList) ("doc1".toList)
    (by decide)).2 (by decide)

/-- Claim C10: the identifier pass is not idempotent: on a fresh engine,
`deidentify_ids` maps `ID: 123456` to `ID: 000001`, and applying the pass
again to that output on the same engine yields the different string
`ID: 000002`, because the generated placeholder itself matches the ID
pattern and the mapping table is keyed only by original matched strings. -/
theorem C10_ids_not_idempotent :
    (deidentify_ids initState ("ID: 123456".toList)).2 = "ID: 000001".toList ∧
    (deidentify_ids (deidentify_ids initState ("ID: 123456".toList)).1
      ((deidentify_ids initState ("ID: 123456".toList)).2)).2 = "ID: 000002".toList ∧
    ("ID: 000001".toList : Str) ≠ "ID: 000002".toList := by decide

end DePii
